import Mathlib

/-!
Verification of the fast-doubling Fibonacci engine and its CLI wrapper
(src/fibonacci.c).  The C program computes F(N) with the fast-doubling
recurrence over GMP arbitrary-precision integers (`mpz_t`, modelled as
`Int`: exact signed integers), optionally splitting the two independent
doubling branches across OpenMP sections, and wraps the engine in a small
CLI that parses arguments, formats output and optionally saves the result
to a file.
-/

/-- The elementary linear recurrence F(0)=0, F(1)=1, F(n)=F(n-1)+F(n-2),
used by the specification as the independent oracle for Fibonacci values. -/
def fib_spec : Nat → Nat
  | 0 => 0
  | 1 => 1
  | n + 2 => fib_spec (n + 1) + fib_spec n

/-- Embedding of `fast_fib_calc` (src/fibonacci.c lines 47-104).
`N` is the index; `a` and `b` are the contents of the caller's output
cells `A` and `B` on entry (the C function receives them as `mpz_t`
out-parameters whose previous contents are arbitrary).  The recursive
call passes freshly initialised cells (`mpz_init` sets them to 0).
Branch 1 computes `TEMP = (F1 << 1) - F0; A = F0 * TEMP`; branch 2
computes `B = F1*F1 + F0*F0`.  When `N` is odd the code does
`mpz_swap(A, B); mpz_add(B, B, A)`, which returns the pair
`(B_candidate, B_candidate + A_candidate)`. -/
def fast_fib_calc : Nat → Int → Int → Int × Int
  | 0, _, _ => (0, 1)
  | n + 1, _, _ =>
    match fast_fib_calc ((n + 1) / 2) 0 0 with
    | (F0, F1) =>
      -- omp section 1: mpz_mul_2exp(TEMP, F1, 1); mpz_sub(TEMP, TEMP, F0); mpz_mul(A, F0, TEMP)
      let TEMP := F1 * 2 - F0
      let A := F0 * TEMP
      -- omp section 2: mpz_mul(B, F1, F1); mpz_mul(F0_Q, F0, F0); mpz_add(B, B, F0_Q)
      let B := F1 * F1 + F0 * F0
      -- parity correction: mpz_swap(A, B); mpz_add(B, B, A)
      if (n + 1) % 2 ≠ 0 then (B, B + A) else (A, B)
decreasing_by simp_wf; omega

/-- The four `mpz_t` cells written during one doubling step: the two
output cells `A` and `B` and the scratch cells `TEMP` and `F0_Q`
(initialised to 0 by `mpz_init`). -/
structure CalcCells where
  A : Int
  B : Int
  TEMP : Int
  F0_Q : Int
deriving DecidableEq

/-- First OpenMP section (src/fibonacci.c lines 72-80):
`mpz_mul_2exp(TEMP, F1, 1); mpz_sub(TEMP, TEMP, F0); mpz_mul(A, F0, TEMP)`.
Reads the shared inputs `F0`, `F1`; writes only the cells `TEMP` and `A`. -/
def omp_section1 (F0 F1 : Int) (s : CalcCells) : CalcCells :=
  let s1 := { s with TEMP := F1 * 2 }
  let s2 := { s1 with TEMP := s1.TEMP - F0 }
  { s2 with A := F0 * s2.TEMP }

/-- Second OpenMP section (src/fibonacci.c lines 81-89):
`mpz_mul(B, F1, F1); mpz_mul(F0_Q, F0, F0); mpz_add(B, B, F0_Q)`.
Reads the shared inputs `F0`, `F1`; writes only the cells `B` and `F0_Q`. -/
def omp_section2 (F0 F1 : Int) (s : CalcCells) : CalcCells :=
  let s1 := { s with B := F1 * F1 }
  let s2 := { s1 with F0_Q := F0 * F0 }
  { s2 with B := s2.B + s2.F0_Q }

/-- The hardcoded parallel-split threshold of the
`#pragma omp parallel sections if (N >= 50000000)` directive. -/
def OMP_THRESHOLD : Nat := 50000000

/-- Scheduled embedding of `fast_fib_calc` at the granularity of the
`mpz` cell operations.  `thr` is the parallel-split threshold; at levels
with `N ≥ thr` the two sections run concurrently and, because they write
disjoint cells, any interleaving is equivalent to one of the two
serialisations, selected here by `parOrd N`; below the threshold the
sections run sequentially in arbitrary order, selected by `seqOrd N`
(`true` means section 1 executes first). -/
def fast_fib_calc_omp (thr : Nat) (seqOrd parOrd : Nat → Bool) :
    Nat → Int → Int → Int × Int
  | 0, _, _ => (0, 1)
  | n + 1, a, b =>
    match fast_fib_calc_omp thr seqOrd parOrd ((n + 1) / 2) 0 0 with
    | (F0, F1) =>
      let s0 : CalcCells := ⟨a, b, 0, 0⟩
      let ord := if thr ≤ n + 1 then parOrd (n + 1) else seqOrd (n + 1)
      let s1 := if ord then omp_section2 F0 F1 (omp_section1 F0 F1 s0)
                else omp_section1 F0 F1 (omp_section2 F0 F1 s0)
      if (n + 1) % 2 ≠ 0 then
        -- mpz_swap(A, B) exchanges the two cells, then mpz_add(B, B, A)
        let s2 := { s1 with A := s1.B, B := s1.A }
        let s3 := { s2 with B := s2.B + s2.A }
        (s3.A, s3.B)
      else (s1.A, s1.B)
decreasing_by simp_wf; omega

/-- Length of the chain of `fast_fib_calc` invocations started by a call
with index `N`: every invocation with `N > 0` makes exactly one recursive
call, with index `N / 2`; the invocation with `N = 0` makes none. -/
def calc_depth : Nat → Nat
  | 0 => 1
  | n + 1 => 1 + calc_depth ((n + 1) / 2)
decreasing_by simp_wf; omega

/-- C `isspace` in the default locale, consulted by `strtoul` when
skipping leading white space. -/
def c_isspace (c : Char) : Bool :=
  c == ' ' || c == '\t' || c == '\n' || c == '\x0b' || c == '\x0c' || c == '\r'

/-- ULONG_MAX for the 64-bit `unsigned long` of the documented Linux
build (gcc, LP64). -/
def ULONG_MAX : Nat := 2 ^ 64 - 1

/-- Value of a base-10 digit run. -/
def digitsVal (l : List Char) : Nat :=
  l.foldl (fun acc c => acc * 10 + (c.toNat - Char.toNat '0')) 0

/-- Result of `strtoul(s, &ENDPTR, 10)`: the returned value, and whether
`*ENDPTR == '\0'` afterwards, i.e. whether the conversion consumed the
whole argument. -/
structure StrtoulResult where
  value : Nat
  consumedAll : Bool
deriving DecidableEq

/-- C `strtoul` with base 10, as called in src/fibonacci.c line 233:
skip leading white space, accept an optional sign, convert the longest
run of decimal digits.  A minus sign negates the converted value in the
unsigned 64-bit return type (modulo 2^64); if the magnitude is not
representable, ULONG_MAX is returned; if there are no digits, no
conversion is performed and ENDPTR is left at the start of the string. -/
def strtoul (s : String) : StrtoulResult :=
  let cs := s.toList
  let afterSpace := cs.dropWhile c_isspace
  let signed : Bool × List Char :=
    match afterSpace with
    | '-' :: rest => (true, rest)
    | '+' :: rest => (false, rest)
    | _ => (false, afterSpace)
  let digits := signed.2.takeWhile Char.isDigit
  let rest := signed.2.dropWhile Char.isDigit
  if digits.isEmpty then
    { value := 0, consumedAll := cs.isEmpty }
  else
    let mag := digitsVal digits
    let v := if ULONG_MAX < mag then ULONG_MAX
             else if signed.1 then (2 ^ 64 - mag) % 2 ^ 64 else mag
    { value := v, consumedAll := rest.isEmpty }

/-- Outcome of the argument-parsing loop of `main`
(src/fibonacci.c lines 218-247): fall through to the computation with a
target index and save flag, exit through the help path, or exit through
the invalid-argument path (which sets RETURN_FLAG = 1). -/
inductive ParseResult where
  | run (target : Nat) (save : Bool)
  | helpExit
  | errorExit (arg : String)
deriving DecidableEq

/-- The argument loop: `-s` sets the save flag, `-h` exits via the help
path, any other argument is parsed with `strtoul`; it becomes the new
target if the whole argument was consumed and the value is positive,
otherwise the loop exits through the error path. -/
def parse_args : List String → Nat → Bool → ParseResult
  | [], target, save => ParseResult.run target save
  | arg :: rest, target, save =>
    if arg = "-s" then parse_args rest target true
    else if arg = "-h" then ParseResult.helpExit
    else
      let r := strtoul arg
      if r.consumedAll ∧ 0 < r.value then parse_args rest r.value save
      else ParseResult.errorExit arg

/-- Observable output lines of `print_fib_info`, one constructor per
`printf` in src/fibonacci.c lines 109-187, carrying the data printed:
`digitSummary` for the "F(N) has d digits" line, `firstApprox50` and
`lastMod50` for the division/modulo lines of the huge-number early
return (the modulo line prints the value of A mod 10^50, so leading
zeros of the digit block are not shown), `writingTo`/`savedTo`/
`saveFailed` for the persistence messages, and `first50`/`last50`/
`fullNumber` for the string-truncation display. -/
inductive OutEvent where
  | digitSummary (N digits : Nat)
  | firstApprox50 (s : String)
  | lastMod50 (s : String)
  | writingTo (fname : String)
  | savedTo (fname : String)
  | saveFailed (fname : String)
  | first50 (s : String)
  | last50 (s : String)
  | fullNumber (s : String)
deriving DecidableEq

/-- Result of `print_fib_info`: the printed lines and the file written,
if any (name and contents). -/
structure PrintResult where
  out : List OutEvent
  file : Option (String × String)
deriving DecidableEq

/-- Number of decimal digits of `a`: the semantics of
`mpz_sizeinbase(A, 10)`, treated as exact per the specification's
provided-primitive model of the big-integer capability. -/
def natDigits (a : Nat) : Nat := (Nat.repr a).length

/-- Embedding of `print_fib_info` (src/fibonacci.c lines 109-187).
`A` is the computed Fibonacci value (GMP integer, non-negative here),
`N` the index, `SAVE` the -s flag, `fileOk` whether `fopen` succeeds on
the output file.  With more than 1000000 digits and no save flag the
function prints first/last 50 digits by division and modulo and returns
early; otherwise it materialises the decimal string (the guard at line
144 is always true on this path), optionally writes the file, and
displays either the full value (at most 100 digits) or the first and
last 50 characters of the string. -/
def print_fib_info (A N : Nat) (SAVE fileOk : Bool) : PrintResult :=
  let NUM_DIGITS := natDigits A
  let summary := OutEvent.digitSummary N NUM_DIGITS
  if 1000000 < NUM_DIGITS ∧ SAVE = false then
    { out := [summary,
        OutEvent.firstApprox50 (Nat.repr (A / 10 ^ (NUM_DIGITS - 50))),
        OutEvent.lastMod50 (Nat.repr (A % 10 ^ 50))],
      file := none }
  else
    let FIB_STR := Nat.repr A
    let FILENAME := "Fibonacci_" ++ Nat.repr N ++ ".txt"
    let saveOut : List OutEvent :=
      if SAVE = true then
        [OutEvent.writingTo FILENAME,
          if fileOk = true then OutEvent.savedTo FILENAME
          else OutEvent.saveFailed FILENAME]
      else []
    let fileOut : Option (String × String) :=
      if SAVE = true ∧ fileOk = true then
        some (FILENAME, "F(" ++ Nat.repr N ++ ") = " ++ FIB_STR ++ "\n")
      else none
    let display : List OutEvent :=
      if 100 < NUM_DIGITS then
        [OutEvent.first50 (FIB_STR.take 50),
          OutEvent.last50 (FIB_STR.drop (NUM_DIGITS - 50))]
      else [OutEvent.fullNumber FIB_STR]
    { out := summary :: (saveOut ++ display), file := fileOut }

/-- Observable outcome of one program run (src/fibonacci.c `main`,
lines 206-296): exit status (RETURN_FLAG), whether the usage text was
printed, the invalid argument reported (if any), the index handed to
`fast_fib_calc` (if the computation ran), the lines printed by
`print_fib_info`, and the file written (if any). -/
structure MainOutcome where
  exitCode : Nat
  usagePrinted : Bool
  invalidArg : Option String
  computed : Option Nat
  printOut : List OutEvent
  fileWritten : Option (String × String)
deriving DecidableEq

/-- Embedding of `main` (src/fibonacci.c lines 206-296).  `args` are the
command-line arguments after the program name; `fileOk` states whether
`fopen` of the output file would succeed.  The target defaults to
20000000 and the save flag to off. -/
def main_run (args : List String) (fileOk : Bool) : MainOutcome :=
  match parse_args args 20000000 false with
  | ParseResult.helpExit =>
    { exitCode := 0, usagePrinted := true, invalidArg := none,
      computed := none, printOut := [], fileWritten := none }
  | ParseResult.errorExit a =>
    { exitCode := 1, usagePrinted := true, invalidArg := some a,
      computed := none, printOut := [], fileWritten := none }
  | ParseResult.run target save =>
    let FIB_N := (fast_fib_calc target 0 0).1.toNat
    let pr := print_fib_info FIB_N target save fileOk
    { exitCode := 0, usagePrinted := false, invalidArg := none,
      computed := some target, printOut := pr.out, fileWritten := pr.file }

lemma fib_spec_eq_fib : ∀ n, fib_spec n = Nat.fib n
  | 0 => by simp [fib_spec]
  | 1 => by simp [fib_spec]
  | n + 2 => by
    rw [fib_spec, fib_spec_eq_fib (n + 1), fib_spec_eq_fib n, Nat.fib_add_two]
    omega

/-- Branch 1 of the doubling step produces F(2k) (cast to `Int`). -/
lemma fib_cand_A (k : Nat) :
    (Nat.fib k : Int) * ((Nat.fib (k + 1) : Int) * 2 - (Nat.fib k : Int)) =
      (Nat.fib (2 * k) : Int) := by
  have hle : Nat.fib k ≤ 2 * Nat.fib (k + 1) :=
    le_trans Nat.fib_le_fib_succ (by omega)
  rw [Nat.fib_two_mul, Nat.cast_mul, Nat.cast_sub hle]
  push_cast
  ring

/-- Branch 2 of the doubling step produces F(2k+1) (cast to `Int`). -/
lemma fib_cand_B (k : Nat) :
    (Nat.fib (k + 1) : Int) * (Nat.fib (k + 1) : Int) +
      (Nat.fib k : Int) * (Nat.fib k : Int) = (Nat.fib (2 * k + 1) : Int) := by
  rw [Nat.fib_two_mul_add_one]
  push_cast
  ring

/-- The parity-corrected pair at index `N > 0` (with `k = N / 2`) is
exactly `(F(N), F(N+1))`. -/
lemma parity_step (N : Nat) :
    (if N % 2 ≠ 0 then
        ((Nat.fib (2 * (N / 2) + 1) : Int),
          (Nat.fib (2 * (N / 2) + 1) : Int) + (Nat.fib (2 * (N / 2)) : Int))
      else ((Nat.fib (2 * (N / 2)) : Int), (Nat.fib (2 * (N / 2) + 1) : Int))) =
      ((Nat.fib N : Int), (Nat.fib (N + 1) : Int)) := by
  by_cases hpar : N % 2 = 0
  · have h2k : 2 * (N / 2) = N := by omega
    simp [hpar, h2k]
  · have h2k : 2 * (N / 2) + 1 = N := by omega
    have hN1 : N + 1 = 2 * (N / 2) + 2 := by omega
    rw [if_pos hpar, h2k, hN1, Nat.fib_add_two, h2k]
    push_cast
    simp only [Prod.mk.injEq]
    exact ⟨trivial, by ring⟩

/-- Main correctness helper: the engine returns `(F(N), F(N+1))`
regardless of the entry contents of its output cells. -/
lemma fast_fib_calc_eq (N : Nat) : ∀ (a b : Int),
    fast_fib_calc N a b = ((Nat.fib N : Int), (Nat.fib (N + 1) : Int)) := by
  induction N using Nat.strong_induction_on with
  | _ N ih =>
    intro a b
    match N with
    | 0 => simp [fast_fib_calc]
    | n + 1 =>
      have hlt : (n + 1) / 2 < n + 1 := by omega
      have hrec := ih ((n + 1) / 2) hlt 0 0
      simp only [fast_fib_calc, hrec]
      rw [fib_cand_A ((n + 1) / 2), fib_cand_B ((n + 1) / 2)]
      exact parity_step (n + 1)

/-- Claim C1: for every non-negative integer N (and any entry contents of
the output cells), `fast_fib_calc` returns the pair `(F(N), F(N+1))`,
where F is the linear recurrence F(0)=0, F(1)=1, F(n)=F(n-1)+F(n-2):
the invariant A = F(k), B = F(k+1) holds at every recursion level,
established by the base case and preserved by every doubling step. -/
theorem C1_fast_fib_correct (N : Nat) (a b : Int) :
    fast_fib_calc N a b = ((fib_spec N : Int), (fib_spec (N + 1) : Int)) := by
  rw [fast_fib_calc_eq N a b, fib_spec_eq_fib, fib_spec_eq_fib]

/-- Claim C10: `fast_fib_calc` fully overwrites both of its output cells:
the result is independent of the values held in the cells `A` and `B`
when the call is made, so the operation is a pure function of N alone. -/
theorem C10_output_cells_overwritten (N : Nat) (a b c d : Int) :
    fast_fib_calc N a b = fast_fib_calc N c d := by
  rw [fast_fib_calc_eq N a b, fast_fib_calc_eq N c d]

/-- Claim C5: recurrence consistency across adjacent indices: for every
N ≥ 1 (written N = n+1), the second component of `fast_fib_calc N` is the
first component of `fast_fib_calc (N+1)`, and the second component of
`fast_fib_calc (N+1)` is the sum of the two components at N. -/
theorem C5_recurrence_consistency (n : Nat) (a b c d : Int) :
    (fast_fib_calc (n + 1) a b).2 = (fast_fib_calc (n + 2) c d).1 ∧
      (fast_fib_calc (n + 2) c d).2 =
        (fast_fib_calc (n + 1) a b).1 + (fast_fib_calc (n + 1) a b).2 := by
  rw [fast_fib_calc_eq (n + 1) a b, fast_fib_calc_eq (n + 2) c d]
  refine ⟨rfl, ?_⟩
  have : Nat.fib (n + 3) = Nat.fib (n + 1) + Nat.fib (n + 2) := Nat.fib_add_two
  simp only [this]
  push_cast
  ring

/-- Claim C4: the engine reproduces the concrete values listed in the
specification's test scenarios. -/
theorem C4_concrete_values :
    fast_fib_calc 0 0 0 = (0, 1) ∧
      fast_fib_calc 1 0 0 = (1, 1) ∧
      fast_fib_calc 2 0 0 = (1, 2) ∧
      fast_fib_calc 10 0 0 = (55, 89) ∧
      fast_fib_calc 20 0 0 = (6765, 10946) ∧
      (fast_fib_calc 100 0 0).1 = 354224848179261915075 := by
  refine ⟨?_, ?_, ?_, ?_, ?_, ?_⟩ <;>
    simp only [fast_fib_calc_eq, Prod.mk.injEq] <;> norm_cast

/-- Variant of `parity_step` with the odd-case sum written as
A-candidate + B-candidate, the order used by the specification. -/
lemma parity_step2 (N : Nat) :
    (if N % 2 ≠ 0 then
        ((Nat.fib (2 * (N / 2) + 1) : Int),
          (Nat.fib (2 * (N / 2)) : Int) + (Nat.fib (2 * (N / 2) + 1) : Int))
      else ((Nat.fib (2 * (N / 2)) : Int), (Nat.fib (2 * (N / 2) + 1) : Int))) =
      ((Nat.fib N : Int), (Nat.fib (N + 1) : Int)) := by
  rw [← parity_step N]
  by_cases hpar : N % 2 = 0
  · simp [hpar]
  · rw [if_pos hpar, if_pos hpar]
    simp only [Prod.mk.injEq]
    exact ⟨trivial, by ring⟩

/-- The two serialisations of the OpenMP sections commute: the sections
read only the shared inputs `F0`, `F1` and write disjoint cells. -/
lemma omp_sections_commute (F0 F1 : Int) (s : CalcCells) :
    omp_section2 F0 F1 (omp_section1 F0 F1 s) =
      omp_section1 F0 F1 (omp_section2 F0 F1 s) := by
  cases s
  simp [omp_section1, omp_section2]

/-- The scheduled cell-level engine returns `(F(N), F(N+1))` for every
threshold, every branch order in both regimes, and every entry contents
of the output cells. -/
lemma fast_fib_calc_omp_eq (thr : Nat) (so po : Nat → Bool) (N : Nat) :
    ∀ a b : Int,
      fast_fib_calc_omp thr so po N a b =
        ((Nat.fib N : Int), (Nat.fib (N + 1) : Int)) := by
  induction N using Nat.strong_induction_on with
  | _ N ih =>
    intro a b
    match N with
    | 0 => simp [fast_fib_calc_omp]
    | n + 1 =>
      have hlt : (n + 1) / 2 < n + 1 := by omega
      have hrec := ih ((n + 1) / 2) hlt 0 0
      simp only [fast_fib_calc_omp, hrec]
      cases hord : (if thr ≤ n + 1 then po (n + 1) else so (n + 1)) <;>
        simp only [hord, omp_section1, omp_section2, if_true, if_false,
          Bool.false_eq_true, ite_true, ite_false] <;>
        rw [fib_cand_A ((n + 1) / 2), fib_cand_B ((n + 1) / 2)] <;>
        exact parity_step2 (n + 1)

/-- Claim C2: the result of `fast_fib_calc` is independent of the
concurrency configuration: any split threshold (forced low, forced high,
or the source's 50000000), any execution order of the two doubling
branches in both the sequential and the parallel regime, and any entry
contents of the output cells yield the same pair as the sequential
engine; hence any two configurations agree bit-for-bit, and repeated
calls with the same N are identical. -/
theorem C2_concurrency_independent (N thr thr2 : Nat)
    (so po so2 po2 : Nat → Bool) (a b c d : Int) :
    fast_fib_calc_omp thr so po N a b = fast_fib_calc_omp thr2 so2 po2 N c d ∧
      fast_fib_calc_omp thr so po N a b = fast_fib_calc N a b := by
  rw [fast_fib_calc_omp_eq, fast_fib_calc_omp_eq, fast_fib_calc_eq]
  exact ⟨rfl, rfl⟩

/-- Claim C3: in the recursive case (N = n+1 > 0, k = N/2), with the
child call returning (F0, F1) = (F(k), F(k+1)), branch 1 computes
F0·((F1 shifted left by 1) − F0) = F(2k) and branch 2 computes
F1·F1 + F0·F0 = F(2k+1); the engine returns the candidate pair as-is
when N is even and (B_candidate, A_candidate + B_candidate) when N is
odd (the swap happens before the addition, each pre-swap value used
exactly once). -/
theorem C3_doubling_step (n : Nat) (a b : Int) :
    ((fib_spec ((n + 1) / 2) : Int) *
        ((fib_spec ((n + 1) / 2 + 1) : Int) * 2 - (fib_spec ((n + 1) / 2) : Int)) =
      (fib_spec (2 * ((n + 1) / 2)) : Int)) ∧
    ((fib_spec ((n + 1) / 2 + 1) : Int) * (fib_spec ((n + 1) / 2 + 1) : Int) +
        (fib_spec ((n + 1) / 2) : Int) * (fib_spec ((n + 1) / 2) : Int) =
      (fib_spec (2 * ((n + 1) / 2) + 1) : Int)) ∧
    fast_fib_calc (n + 1) a b =
      (if (n + 1) % 2 ≠ 0 then
        ((fib_spec (2 * ((n + 1) / 2) + 1) : Int),
          (fib_spec (2 * ((n + 1) / 2)) : Int) +
            (fib_spec (2 * ((n + 1) / 2) + 1) : Int))
      else
        ((fib_spec (2 * ((n + 1) / 2)) : Int),
          (fib_spec (2 * ((n + 1) / 2) + 1) : Int))) := by
  simp only [fib_spec_eq_fib]
  refine ⟨fib_cand_A _, fib_cand_B _, ?_⟩
  rw [fast_fib_calc_eq, parity_step2 (n + 1)]

lemma calc_depth_zero : calc_depth 0 = 1 := by simp [calc_depth]

lemma calc_depth_succ (n : Nat) :
    calc_depth (n + 1) = 1 + calc_depth ((n + 1) / 2) := by
  simp [calc_depth]

/-- Call-chain length: for N ≥ 1 the chain has ⌊log2 N⌋ + 2 frames,
counting the base-case frame at index 0. -/
lemma calc_depth_log : ∀ n : Nat, 0 < n → calc_depth n = Nat.log 2 n + 2 := by
  intro n
  induction n using Nat.strong_induction_on with
  | _ n ih =>
    intro hn
    obtain ⟨m, rfl⟩ : ∃ m, n = m + 1 := ⟨n - 1, by omega⟩
    rw [calc_depth_succ]
    by_cases h1 : m = 0
    · subst h1
      norm_num [calc_depth_zero, Nat.log_one_right]
    · have hdiv : 0 < (m + 1) / 2 := by omega
      rw [ih ((m + 1) / 2) (by omega) hdiv]
      have hlog : Nat.log 2 ((m + 1) / 2) = Nat.log 2 (m + 1) - 1 :=
        Nat.log_div_base 2 (m + 1)
      have hpos : 0 < Nat.log 2 (m + 1) := Nat.log_pos one_lt_two (by omega)
      omega

/-- Claim C6 counterexample: at N = 4 the call chain is 4 → 2 → 1 → 0,
four invocations, while the claimed formula gives ⌈log2 4⌉ + 1 = 3. -/
theorem C6_counterexample : calc_depth 4 ≠ Nat.clog 2 4 + 1 := by
  have h1 : calc_depth 4 = Nat.log 2 4 + 2 := calc_depth_log 4 (by omega)
  have h2 : Nat.log 2 4 = 2 := by
    rw [show (4 : Nat) = 2 ^ 2 from rfl]
    exact Nat.log_pow one_lt_two 2
  have h3 : Nat.clog 2 4 = 2 := by
    rw [show (4 : Nat) = 2 ^ 2 from rfl]
    exact Nat.clog_pow 2 2 one_lt_two
  omega

/-- Claim C6 (amended): `fast_fib_calc` terminates for every N: each
recursive call is on N/2, strictly smaller than N whenever N > 0, and
for N ≥ 1 the call chain has ⌊log2 N⌋ + 2 frames (the base-case frame
at index 0 included) — this equals ⌈log2 N⌉ + 1 except when N is a
power of two, where the chain has one more frame. -/
theorem C6_termination_depth (n : Nat) :
    (n + 1) / 2 < n + 1 ∧ calc_depth (n + 1) = Nat.log 2 (n + 1) + 2 :=
  ⟨by omega, calc_depth_log (n + 1) (by omega)⟩

/-- Claim C7, checked on the inputs named by the specification: the
non-numeric argument "abc" and the zero argument "0" are rejected with
usage text, exit status 1, no computation and no file, as claimed; but
the negative argument "-3" is NOT rejected: `strtoul` wraps it to
2^64 - 3 = 18446744073709551613, which passes the `PARSED > 0` test, so
the program prints no usage text, attempts the Fibonacci computation at
that index and exits with status 0, contradicting the claimed rejection
of non-positive arguments. -/
theorem C7_invalid_args :
    (main_run ["abc"] true).exitCode = 1 ∧
      (main_run ["abc"] true).usagePrinted = true ∧
      (main_run ["abc"] true).computed = none ∧
      (main_run ["abc"] true).fileWritten = none ∧
      (main_run ["0"] true).exitCode = 1 ∧
      (main_run ["0"] true).usagePrinted = true ∧
      (main_run ["0"] true).computed = none ∧
      (main_run ["0"] true).fileWritten = none ∧
      (main_run ["-3"] true).computed = some 18446744073709551613 ∧
      (main_run ["-3"] true).exitCode = 0 ∧
      (main_run ["-3"] true).usagePrinted = false := by
  refine ⟨?_, ?_, ?_, ?_, ?_, ?_, ?_, ?_, ?_, ?_, ?_⟩ <;> rfl

/-- Claim C8 counterexample: with a value of 101 digits (10^100) and the
save flag unset, the claim prescribes the division/modulo method for the
first/last-50 display, but the code materialises the decimal string
(the digit count is at most 1000000) and truncates it: no
division-based line is printed. -/
theorem C8_counterexample :
    OutEvent.firstApprox50
        (Nat.repr (10 ^ 100 / 10 ^ (natDigits (10 ^ 100) - 50))) ∉
      (print_fib_info (10 ^ 100) 100 false true).out := by
  decide

/-- Claim C8 (amended): the digit count is always printed; with at most
100 digits the full value is printed; with more than 100 digits the
first and last 50 digits are printed — via division by 10^(digits-50)
and modulo 10^50 only when the digit count exceeds 1000000 and the save
flag is unset, and via truncation of the materialised decimal string in
every other case (digit count at most 1000000, or saving). -/
theorem C8_formatting (A N : Nat) (save fileOk : Bool) :
    OutEvent.digitSummary N (natDigits A) ∈ (print_fib_info A N save fileOk).out ∧
      (if natDigits A ≤ 100 then
          OutEvent.fullNumber (Nat.repr A) ∈ (print_fib_info A N save fileOk).out
        else if 1000000 < natDigits A ∧ save = false then
          OutEvent.firstApprox50 (Nat.repr (A / 10 ^ (natDigits A - 50))) ∈
              (print_fib_info A N save fileOk).out ∧
            OutEvent.lastMod50 (Nat.repr (A % 10 ^ 50)) ∈
              (print_fib_info A N save fileOk).out
        else
          OutEvent.first50 ((Nat.repr A).take 50) ∈
              (print_fib_info A N save fileOk).out ∧
            OutEvent.last50 ((Nat.repr A).drop (natDigits A - 50)) ∈
              (print_fib_info A N save fileOk).out) := by
  by_cases hbig : 1000000 < natDigits A ∧ save = false
  · have h100 : ¬ natDigits A ≤ 100 := by
      have := hbig.1
      omega
    simp [print_fib_info, hbig, h100]
  · simp only [print_fib_info, if_neg hbig]
    by_cases h100 : natDigits A ≤ 100
    · have hlt : ¬ 100 < natDigits A := by omega
      simp [h100, hbig, hlt, List.mem_append]
    · have hlt : 100 < natDigits A := by omega
      simp [h100, hbig, hlt, List.mem_append]

/-- Claim C9: when the save flag is set and the output file cannot be
opened, the failure is reported ("failed." / "Couldn't create file"),
the computed result is still displayed on standard output (digit count
plus full value or first/last 50 digits), no file is written, and the
condition is non-fatal: the exit status of any run equals the exit
status of the same run with a writable file. -/
theorem C9_save_failure (A N : Nat) (args : List String) :
    OutEvent.saveFailed ("Fibonacci_" ++ Nat.repr N ++ ".txt") ∈
        (print_fib_info A N true false).out ∧
      OutEvent.digitSummary N (natDigits A) ∈ (print_fib_info A N true false).out ∧
      (if natDigits A ≤ 100 then
          OutEvent.fullNumber (Nat.repr A) ∈ (print_fib_info A N true false).out
        else
          OutEvent.first50 ((Nat.repr A).take 50) ∈
              (print_fib_info A N true false).out ∧
            OutEvent.last50 ((Nat.repr A).drop (natDigits A - 50)) ∈
              (print_fib_info A N true false).out) ∧
      (print_fib_info A N true false).file = none ∧
      (main_run args false).exitCode = (main_run args true).exitCode := by
  refine ⟨?_, ?_, ?_, ?_, ?_⟩
  · simp [print_fib_info, List.mem_append]
  · simp [print_fib_info]
  · by_cases h100 : natDigits A ≤ 100
    · have hlt : ¬ 100 < natDigits A := by omega
      simp [print_fib_info, h100, hlt, List.mem_append]
    · have hlt : 100 < natDigits A := by omega
      simp [print_fib_info, h100, hlt, List.mem_append]
  · simp [print_fib_info]
  · cases h : parse_args args 20000000 false <;> simp [main_run, h]
